import Mathlib

/-!
Verification of the asynchronous result-correlation engine of the
Search_AI repository against its specification.

The embedding below is a shallow model of the TypeScript / JavaScript
sources.  JavaScript strings are modelled as Lean `String` (a list of
characters); the JavaScript lower-casing used by the sources only
matters on ASCII letters here and is modelled by `Char.toLower`.
JavaScript truthiness of a string field is emptiness testing; an absent
object field is modelled with `Option`.
-/

namespace SearchAI

/-! ## Normalizer, from `normalizeUrl` in `src/app/api/isv-search/route.ts`

The source is
`url.toLowerCase().replace(/^https?:\/\//, '').replace(/^www\./, '').replace(/\/$/, '')`
guarded by `if (!url) return ''`.  Each `replace` with an anchored
pattern removes at most one occurrence, so the model strips one scheme,
one `www.` label and one trailing slash, in that order, after
lower-casing. -/

/-- Character-wise lower-casing, the model of `String.prototype.toLowerCase`
restricted to the ASCII letters the sources compare. -/
def lowerL (l : List Char) : List Char := l.map Char.toLower

/-- The characters of the pattern `http://`. -/
def httpChars : List Char := ['h', 't', 't', 'p', ':', '/', '/']

/-- The characters of the pattern `https://`. -/
def httpsChars : List Char := ['h', 't', 't', 'p', 's', ':', '/', '/']

/-- The characters of the pattern `www.`. -/
def wwwChars : List Char := ['w', 'w', 'w', '.']

/-- Model of `.replace(/^https?:\/\//, '')`: drop one leading
`http://` or `https://`. -/
def stripScheme : List Char → List Char
  | 'h' :: 't' :: 't' :: 'p' :: ':' :: '/' :: '/' :: rest => rest
  | 'h' :: 't' :: 't' :: 'p' :: 's' :: ':' :: '/' :: '/' :: rest => rest
  | l => l

/-- Model of `.replace(/^www\./, '')`: drop one leading `www.`. -/
def stripWww : List Char → List Char
  | 'w' :: 'w' :: 'w' :: '.' :: rest => rest
  | l => l

/-- Model of `.replace(/\/$/, '')`: drop exactly one trailing slash. -/
def stripSlash (l : List Char) : List Char :=
  if l.getLast? = some '/' then l.dropLast else l

/-- The normalization pipeline on character lists, in source order. -/
def normList (l : List Char) : List Char :=
  stripSlash (stripWww (stripScheme (lowerL l)))

/-- Model of `normalizeUrl` on strings; the `if (!url) return ''` guard
is the identity on the empty string, which the pipeline already fixes. -/
def normalizeUrl (s : String) : String := String.mk (normList s.data)

/-- Model of `normalizeUrl` on a nullable argument: `null` and
`undefined` are falsy, so they yield the empty string. -/
def normalizeUrlNullable (s : Option String) : String :=
  match s with
  | none => ""
  | some str => normalizeUrl str

/-! ### The Normalizer contract as the spec words it

The following definitions restate the spec sentence "Lower-cases input;
strips a leading scheme (`http://`/`https://`) if present; strips a
leading `www.` label if present; strips exactly one trailing `/`.
Empty or null input yields empty string" with generic
take/drop/reverse operations, independently of the pattern matching
used for the source model above; the refinement theorem for C5 proves
the two agree on every input. -/

/-- Removal of the leading pattern `p` from `l` when present. -/
def dropHead (p l : List Char) : List Char :=
  if l.take p.length = p then l.drop p.length else l

/-- Spec wording of the scheme strip: remove a leading `http://`, or
else a leading `https://`, if present. -/
def schemeContract (l : List Char) : List Char :=
  if l.take 7 = httpChars then l.drop 7 else dropHead httpsChars l

/-- Spec wording of the trailing-slash strip: remove exactly one
trailing slash, phrased through `reverse`. -/
def revStripSlash (l : List Char) : List Char :=
  match l.reverse with
  | '/' :: rest => rest.reverse
  | _ => l

/-- The Normalizer contract of the spec: lower-case, strip one leading
scheme if present, strip one leading `www.` label if present, strip
exactly one trailing slash; empty or null input yields the empty
string. -/
def normalizeUrlContract (s : Option String) : String :=
  match s with
  | none => ""
  | some str =>
    String.mk (revStripSlash (dropHead wwwChars
      (schemeContract (str.data.map Char.toLower))))

/-! ## Data model

`Company` is the object `{ name, website }` produced by `searchISVs` and
passed to `enrichWithSignalHire`; it is also the Query of the spec
(`requestedName` is `name`, `requestedWebsite` is `website`).
`CallbackRecord` is one entry of the array returned by the callback GET
endpoint, as consumed by the matcher: a raw `status` string plus an
optional `candidate` object. -/

/-- One entry of a candidate `contacts` array: `{ type, value }`. -/
structure Contact where
  ctype : String
  value : String
deriving DecidableEq

/-- The candidate object of a callback result, with the fields the
sources read.  Absent string fields are modelled by the empty string,
matching JavaScript falsiness of `undefined` and `""` alike. -/
structure Candidate where
  fullName : String
  headLine : String
  company : String
  website : String
  contacts : List Contact
deriving DecidableEq

/-- One callback result record as seen by the matcher. -/
structure CallbackRecord where
  status : String
  candidate : Option Candidate
deriving DecidableEq

/-- The `{ name, website }` object built by `searchISVs` and used as the
query of the correlation engine. -/
structure Company where
  name : String
  website : String
deriving DecidableEq

/-! ## Matcher, from the `allResults.find(...)` callback in
`enrichWithSignalHire` (`src/app/api/isv-search/route.ts`). -/

/-- Model of `JavaScript String.prototype.includes` on character lists:
`headEq needle hay` holds when `needle` is a leading block of `hay`. -/
def headEq : List Char → List Char → Bool
  | [], _ => true
  | _ :: _, [] => false
  | a :: as, b :: bs => a == b && headEq as bs

/-- Model of `hay.includes(needle)`. -/
def containsSub (needle : List Char) : List Char → Bool
  | [] => needle.isEmpty
  | c :: rest => headEq needle (c :: rest) || containsSub needle rest

/-- The predicate of `allResults.find`: a record matches when its
candidate is present and either the candidate website is truthy with
equal normalizations, or the candidate company and the query name are
truthy and the lower-cased company contains the lower-cased name.
The record `status` field is not consulted. -/
def recordMatches (company : Company) (r : CallbackRecord) : Bool :=
  match r.candidate with
  | none => false
  | some c =>
    (c.website != "" && normalizeUrl c.website == normalizeUrl company.website)
    || (c.company != "" && company.name != "" &&
        containsSub (lowerL company.name.data) (lowerL c.company.data))

/-- Model of `allResults.find(...)`: first record in arrival order
satisfying the predicate, `none` when there is no such record. -/
def findMatch (company : Company) (snapshot : List CallbackRecord) : Option CallbackRecord :=
  snapshot.find? (recordMatches company)

/-! ## Correlation waiter, from the polling loop of
`enrichWithSignalHire`. -/

/-- The `ceo` object assembled from a matched candidate. -/
structure Ceo where
  name : String
  title : String
  email : String
  phone : String
deriving DecidableEq

/-- Model of the JavaScript idiom `x || 'N/A'` on strings. -/
def orNA (s : String) : String := if s = "" then "N/A" else s

/-- Model of `contacts.find(c => c.type === t)?.value || 'N/A'`. -/
def contactValue (contacts : List Contact) (t : String) : String :=
  match contacts.find? (fun c => c.ctype == t) with
  | some c => orNA c.value
  | none => "N/A"

/-- The ceo object built from a matched candidate, field by field as in
the source. -/
def ceoOfCandidate (c : Candidate) : Ceo :=
  ⟨orNA c.fullName, orNA c.headLine,
   contactValue c.contacts "email", contactValue c.contacts "phone"⟩

/-- The sentinel assigned when the polling loop ends without a match. -/
def notFoundSentinel : Ceo := ⟨"Not found", "", "", ""⟩

/-- The sentinel returned from the catch-all handler. -/
def errorSentinel : Ceo := ⟨"Error", "", "", ""⟩

/-- The polling loop: each element of `snaps` is the snapshot returned
by one GET of the callback endpoint during the 15 second window; the
end of the list is the timeout.  A tick whose snapshot holds a match
with a present candidate resolves; otherwise the loop sleeps and
retries. -/
def pollLoop (company : Company) : List (List CallbackRecord) → Option Ceo
  | [] => none
  | snap :: later =>
    match findMatch company snap with
    | some r =>
      match r.candidate with
      | some c => some (ceoOfCandidate c)
      | none => pollLoop company later
    | none => pollLoop company later

/-- The enriched object `{ ...company, ceo }` returned to the caller. -/
structure EnrichedCompany where
  name : String
  website : String
  ceo : Ceo
deriving DecidableEq

/-- Model of `enrichWithSignalHire`.  `snaps` is the sequence of
snapshots observed by the polling loop; `ok` is true when no awaited
call throws, false when any of them does, in which case the catch-all
handler returns the error sentinel.  The function is total: every path
returns an enriched record, modelling that the source never lets an
exception escape to the caller. -/
def enrichWithSignalHire (company : Company) (snaps : List (List CallbackRecord))
    (ok : Bool) : EnrichedCompany :=
  if ok then
    match pollLoop company snaps with
    | some ceo => ⟨company.name, company.website, ceo⟩
    | none => ⟨company.name, company.website, notFoundSentinel⟩
  else ⟨company.name, company.website, errorSentinel⟩

/-! ## Callback sink, from
`src/ceo-fetcher/app/api/signalhire/callback/route.ts`.

The route parses the request body, pushes the parsed payload onto the
module-level `responses` array, then awaits a backup file write, all
inside one try block whose catch returns a 500 response.  The GET
handler returns the `responses` array. -/

/-- A JSON payload, as far as the sink claims need it: an atom or an
array of payloads. -/
inductive Payload where
  | atom : String → Payload
  | arr : List Payload → Payload

/-- Model of the POST handler.  `body` is the outcome of
`request.json()` (`none` when parsing throws); `writeOk` is whether the
backup `writeFile` succeeds.  The result is the new `responses` array
and the HTTP status of the response.  The push precedes the file write,
so a failed write leaves the pushed record in place but reaches the
catch handler, which answers 500. -/
def callbackPOST (sink : List Payload) (body : Option Payload) (writeOk : Bool) :
    List Payload × Nat :=
  match body with
  | none => (sink, 500)
  | some data =>
    let sink2 := sink ++ [data]
    if writeOk then (sink2, 200) else (sink2, 500)

/-- Model of the GET handler: the stored responses, in arrival order. -/
def callbackGET (sink : List Payload) : List Payload := sink

/-! ## Search pipeline, from `searchISVs` in
`src/app/api/isv-search/route.ts`. -/

/-- One organic search result, with the two fields the source reads. -/
structure RawResult where
  title : String
  link : String
deriving DecidableEq

/-- Model of the extraction step: keep results with truthy `link` and
`title`, take the first three, and build `{ name: title, website: link }`
objects. -/
def topResults (organic : List RawResult) : List Company :=
  ((organic.filter (fun r => r.link != "" && r.title != "")).take 3).map
    (fun r => ⟨r.title, r.link⟩)

/-- The deduplication pass of `searchISVs`, with the `seen` set made
explicit: an item whose normalized website is empty or already seen is
dropped, otherwise it is kept and its key recorded. -/
def dedupeLoop (seen : List String) : List Company → List Company
  | [] => []
  | company :: rest =>
    if normalizeUrl company.website = "" ∨ normalizeUrl company.website ∈ seen then
      dedupeLoop seen rest
    else company :: dedupeLoop (normalizeUrl company.website :: seen) rest

/-- Model of the `uniqueResults` filter with its initially empty set. -/
def dedupeCompanies (companies : List Company) : List Company :=
  dedupeLoop [] companies

/-- Model of `searchISVs` after the HTTP fetch: extraction then
deduplication of the parsed organic results. -/
def searchISVs (organic : List RawResult) : List Company :=
  dedupeCompanies (topResults organic)

/-! ## Normalizer lemmas -/

/-- Conversion of a valid code point and back is the identity. -/
theorem char_toNat_ofNat_valid (n : Nat) (h : Nat.isValidChar n) :
    (Char.ofNat n).toNat = n := by
  rw [Char.ofNat, dif_pos h]
  rfl

/-- ASCII lower-casing of a character is idempotent. -/
theorem toLower_idem (c : Char) : (c.toLower).toLower = c.toLower := by
  unfold Char.toLower
  by_cases h : c.toNat ≥ 65 ∧ c.toNat ≤ 90
  · rw [if_pos h]
    have hv : Nat.isValidChar (c.toNat + 32) := Or.inl (by omega)
    have ht : (Char.ofNat (c.toNat + 32)).toNat = c.toNat + 32 :=
      char_toNat_ofNat_valid _ hv
    rw [if_neg (by omega)]
  · rw [if_neg h, if_neg h]

/-- Character-wise lower-casing of a list is idempotent. -/
theorem lowerL_idem (l : List Char) : lowerL (lowerL l) = lowerL l := by
  unfold lowerL
  rw [List.map_map]
  exact List.map_congr_left (fun a _ => toLower_idem a)

/-- The scheme strip removes a leading `http://` block. -/
theorem stripScheme_http (t : List Char) : stripScheme (httpChars ++ t) = t := rfl

/-- The scheme strip removes a leading `https://` block. -/
theorem stripScheme_https (t : List Char) : stripScheme (httpsChars ++ t) = t := rfl

/-- The scheme strip is the identity when no scheme leads the list. -/
theorem stripScheme_id (l : List Char)
    (h7 : l.take 7 ≠ httpChars) (h8 : l.take 8 ≠ httpsChars) :
    stripScheme l = l := by
  unfold stripScheme
  split
  · next rest => exact absurd rfl h7
  · next rest => exact absurd rfl h8
  · rfl

/-- The `www.` strip removes a leading `www.` block. -/
theorem stripWww_www (t : List Char) : stripWww (wwwChars ++ t) = t := rfl

/-- The `www.` strip is the identity when no `www.` leads the list. -/
theorem stripWww_id (l : List Char) (h4 : l.take 4 ≠ wwwChars) :
    stripWww l = l := by
  unfold stripWww
  split
  · next rest => exact absurd rfl h4
  · rfl

/-- The scheme strip always drops a fixed leading block. -/
theorem stripScheme_drop (l : List Char) : ∃ k, stripScheme l = l.drop k := by
  unfold stripScheme
  split
  · exact ⟨7, rfl⟩
  · exact ⟨8, rfl⟩
  · exact ⟨0, rfl⟩

/-- The `www.` strip always drops a fixed leading block. -/
theorem stripWww_drop (l : List Char) : ∃ k, stripWww l = l.drop k := by
  unfold stripWww
  split
  · exact ⟨4, rfl⟩
  · exact ⟨0, rfl⟩

/-- Dropping a leading block of a lower-case-fixed list stays fixed. -/
theorem lowerFixed_drop (l : List Char) (n : Nat) (h : lowerL l = l) :
    lowerL (l.drop n) = l.drop n := by
  unfold lowerL at h ⊢
  rw [List.map_drop, h]

/-- The scheme strip of a lower-case-fixed list stays fixed. -/
theorem lowerFixed_stripScheme (l : List Char) (h : lowerL l = l) :
    lowerL (stripScheme l) = stripScheme l := by
  obtain ⟨k, hk⟩ := stripScheme_drop l
  rw [hk]
  exact lowerFixed_drop l k h

/-- The `www.` strip of a lower-case-fixed list stays fixed. -/
theorem lowerFixed_stripWww (l : List Char) (h : lowerL l = l) :
    lowerL (stripWww l) = stripWww l := by
  obtain ⟨k, hk⟩ := stripWww_drop l
  rw [hk]
  exact lowerFixed_drop l k h

/-- The trailing-slash strip of a lower-case-fixed list stays fixed. -/
theorem lowerFixed_stripSlash (l : List Char) (h : lowerL l = l) :
    lowerL (stripSlash l) = stripSlash l := by
  unfold stripSlash
  by_cases hl : l.getLast? = some '/'
  · rw [if_pos hl]
    unfold lowerL at h ⊢
    rw [List.map_dropLast, h]
  · rw [if_neg hl]
    exact h

/-- The full normalization pipeline produces a lower-case-fixed list. -/
theorem lowerL_normList (l : List Char) : lowerL (normList l) = normList l := by
  unfold normList
  exact lowerFixed_stripSlash _ (lowerFixed_stripWww _ (lowerFixed_stripScheme _ (lowerL_idem l)))

/-- The pipeline is the identity on a lower-case-fixed list with no
leading scheme, no leading `www.` label and no trailing slash. -/
theorem normList_id_of_stable (m : List Char)
    (hl : lowerL m = m)
    (h7 : m.take 7 ≠ httpChars) (h8 : m.take 8 ≠ httpsChars)
    (h4 : m.take 4 ≠ wwwChars) (hs : m.getLast? ≠ some '/') :
    normList m = m := by
  unfold normList
  rw [hl, stripScheme_id m h7 h8, stripWww_id m h4]
  unfold stripSlash
  rw [if_neg hs]

/-- The source scheme strip agrees with the spec wording. -/
theorem stripScheme_eq_contract (l : List Char) :
    stripScheme l = schemeContract l := by
  unfold schemeContract
  by_cases h7 : l.take 7 = httpChars
  · have hl : httpChars ++ l.drop 7 = l := by
      rw [← h7]
      exact List.take_append_drop 7 l
    rw [if_pos h7]
    calc stripScheme l = stripScheme (httpChars ++ l.drop 7) := by rw [hl]
      _ = l.drop 7 := stripScheme_http _
  · rw [if_neg h7]
    by_cases h8 : l.take 8 = httpsChars
    · have hl : httpsChars ++ l.drop 8 = l := by
        rw [← h8]
        exact List.take_append_drop 8 l
      have hlen : httpsChars.length = 8 := rfl
      have hc : dropHead httpsChars l = l.drop 8 := by
        unfold dropHead
        rw [hlen, if_pos h8]
      calc stripScheme l = stripScheme (httpsChars ++ l.drop 8) := by rw [hl]
        _ = l.drop 8 := stripScheme_https _
        _ = dropHead httpsChars l := hc.symm
    · have hlen : httpsChars.length = 8 := rfl
      have hc : dropHead httpsChars l = l := by
        unfold dropHead
        rw [hlen, if_neg h8]
      rw [hc]
      exact stripScheme_id l h7 h8

/-- The source `www.` strip agrees with the spec wording. -/
theorem stripWww_eq_contract (l : List Char) :
    stripWww l = dropHead wwwChars l := by
  by_cases h4 : l.take 4 = wwwChars
  · have hl : wwwChars ++ l.drop 4 = l := by
      rw [← h4]
      exact List.take_append_drop 4 l
    have hlen : wwwChars.length = 4 := rfl
    have hc : dropHead wwwChars l = l.drop 4 := by
      unfold dropHead
      rw [hlen, if_pos h4]
    calc stripWww l = stripWww (wwwChars ++ l.drop 4) := by rw [hl]
      _ = l.drop 4 := stripWww_www _
      _ = dropHead wwwChars l := hc.symm
  · have hlen : wwwChars.length = 4 := rfl
    have hc : dropHead wwwChars l = l := by
      unfold dropHead
      rw [hlen, if_neg h4]
    rw [hc]
    exact stripWww_id l h4

/-- The source trailing-slash strip agrees with the spec wording. -/
theorem stripSlash_eq_contract (l : List Char) :
    stripSlash l = revStripSlash l := by
  unfold stripSlash revStripSlash
  cases hr : l.reverse with
  | nil =>
    have hnil : l = [] := by
      have := congrArg List.reverse hr
      rwa [List.reverse_reverse] at this
    subst hnil
    rfl
  | cons c rest =>
    have hl : l = rest.reverse ++ [c] := by
      have := congrArg List.reverse hr
      rw [List.reverse_reverse] at this
      simpa using this
    by_cases hc : c = '/'
    · subst hc
      rw [if_pos (by rw [hl]; simp)]
      rw [hl]
      simp
    · rw [if_neg (by rw [hl]; simp [hc])]
      split
      · next r heq =>
        injection heq with h1 h2
        exact absurd h1 hc
      · rfl

/-! ## Claim theorems for the Normalizer -/

/-- C4, counterexample: `normalizeUrl` is not idempotent as claimed.
At the input `a//` one pass strips a single trailing slash, yielding
`a/`, and a second pass strips again, yielding `a`. -/
theorem normalizeUrl_not_idempotent :
    normalizeUrl (normalizeUrl "a//") ≠ normalizeUrl "a//" ∧
    normalizeUrl "a//" = "a/" ∧ normalizeUrl "a/" = "a" := by
  refine ⟨?_, ?_, ?_⟩ <;> decide

/-- C4, amended: `normalizeUrl` is idempotent on every string whose
normalized form neither starts with `http://`, `https://` or `www.`
nor ends with a slash; the empty string maps to itself. -/
theorem normalizeUrl_idem_stable (s : String)
    (h7 : (normalizeUrl s).data.take 7 ≠ httpChars)
    (h8 : (normalizeUrl s).data.take 8 ≠ httpsChars)
    (h4 : (normalizeUrl s).data.take 4 ≠ wwwChars)
    (hs : (normalizeUrl s).data.getLast? ≠ some '/') :
    normalizeUrl (normalizeUrl s) = normalizeUrl s ∧ normalizeUrl "" = "" := by
  constructor
  · show String.mk (normList (normList s.data)) = String.mk (normList s.data)
    rw [normList_id_of_stable (normList s.data) (lowerL_normList s.data) h7 h8 h4 hs]
  · rfl

/-- Witness for the amended C4 at a concrete input. -/
theorem normalizeUrl_idem_stable_witness :
    normalizeUrl (normalizeUrl "HTTP://www.Foo.com/") = normalizeUrl "HTTP://www.Foo.com/" ∧
      normalizeUrl "" = "" :=
  normalizeUrl_idem_stable "HTTP://www.Foo.com/" (by decide) (by decide) (by decide) (by decide)

/-- C5: the source `normalizeUrl` realizes the Normalizer contract of
the spec — lower-case the input, strip one leading scheme if present,
then one leading `www.` label if present, then exactly one trailing
slash, with empty and null inputs yielding the empty string — and the
claimed equivalence `normalizeUrl("https://www.Example.com/") ==
normalizeUrl("example.com")` holds, both sides being `example.com`. -/
theorem normalizeUrl_meets_contract :
    (∀ s : String, normalizeUrl s = normalizeUrlContract (some s)) ∧
    normalizeUrlContract none = "" ∧
    normalizeUrlNullable none = "" ∧
    normalizeUrl "" = "" ∧
    normalizeUrl "https://www.Example.com/" = normalizeUrl "example.com" ∧
    normalizeUrl "https://www.Example.com/" = "example.com" := by
  refine ⟨?_, rfl, rfl, rfl, by decide, by decide⟩
  intro s
  show String.mk (stripSlash (stripWww (stripScheme (lowerL s.data)))) =
    String.mk (revStripSlash (dropHead wwwChars (schemeContract (s.data.map Char.toLower))))
  rw [stripSlash_eq_contract, stripWww_eq_contract, stripScheme_eq_contract]
  rfl

/-! ## Claim theorems for the Matcher -/

/-- C1, counterexample: the claim is false on the code.  The matcher
never consults the record status: a record with status `failed` whose
candidate website matches is declared a match.  It also declares an
exact match when both normalized websites are empty, as long as the raw
candidate website is truthy: a candidate website `/` normalizes to the
empty string and matches a query whose website is empty. -/
theorem matcher_ignores_status_counterexample :
    (findMatch ⟨"acme", "x.com"⟩ [⟨"failed", some ⟨"", "", "", "x.com", []⟩⟩] =
      some ⟨"failed", some ⟨"", "", "", "x.com", []⟩⟩) ∧
    ("failed" : String) ≠ "success" ∧
    (findMatch ⟨"", ""⟩ [⟨"success", some ⟨"", "", "", "/", []⟩⟩] =
      some ⟨"success", some ⟨"", "", "", "/", []⟩⟩) ∧
    normalizeUrl "/" = "" ∧ normalizeUrl "" = "" := by
  refine ⟨?_, ?_, ?_, ?_, ?_⟩ <;> decide

/-- C1, amended: the matcher considers every record whose candidate is
present, regardless of status, and declares a match exactly when the
raw candidate website is non-empty with equal normalizations (the
normalized values may both be empty), or the candidate company and the
query name are non-empty and the lower-cased company contains the
lower-cased name as a substring; any record returned by the matcher
satisfies this condition. -/
theorem matcher_match_characterization (company : Company) (r : CallbackRecord)
    (snap : List CallbackRecord) :
    (recordMatches company r = true ↔
      ∃ c, r.candidate = some c ∧
        ((c.website ≠ "" ∧ normalizeUrl c.website = normalizeUrl company.website) ∨
         (c.company ≠ "" ∧ company.name ≠ "" ∧
           containsSub (lowerL company.name.data) (lowerL c.company.data) = true))) ∧
    (∀ rec, findMatch company snap = some rec → recordMatches company rec = true) := by
  constructor
  · cases hc : r.candidate with
    | none => simp [recordMatches, hc]
    | some c =>
      simp [recordMatches, hc, bne_iff_ne, and_assoc]
  · intro rec h
    exact List.find?_some h

/-- Witness for the amended C1 at concrete inputs: a failed-status
record with a matching candidate website satisfies the match
condition. -/
theorem matcher_match_characterization_witness :
    ∃ c, (⟨"failed", some ⟨"Jane", "CEO", "Acme Corp", "x.com", []⟩⟩ :
        CallbackRecord).candidate = some c ∧
      ((c.website ≠ "" ∧ normalizeUrl c.website = normalizeUrl
          (⟨"acme", "x.com"⟩ : Company).website) ∨
       (c.company ≠ "" ∧ (⟨"acme", "x.com"⟩ : Company).name ≠ "" ∧
         containsSub (lowerL (⟨"acme", "x.com"⟩ : Company).name.data)
           (lowerL c.company.data) = true)) :=
  (matcher_match_characterization ⟨"acme", "x.com"⟩
    ⟨"failed", some ⟨"Jane", "CEO", "Acme Corp", "x.com", []⟩⟩ []).1.mp (by decide)

/-- C6: the matcher returns the first record in arrival order that
satisfies either rule: a matching record preceded only by non-matching
records is returned; with two records in the snapshot, a matching first
record is returned no matter what the second is — in particular a
later exact-URL match never overrides an earlier name-substring match —
and the matcher returns none when no record matches. -/
theorem matcher_first_arrival (company : Company)
    (early rest others : List CallbackRecord) (r r2 : CallbackRecord)
    (hearly : ∀ x ∈ early, recordMatches company x = false)
    (hr : recordMatches company r = true)
    (hnone : ∀ x ∈ others, recordMatches company x = false) :
    findMatch company (early ++ r :: rest) = some r ∧
    findMatch company (r :: r2 :: rest) = some r ∧
    findMatch company others = none := by
  refine ⟨?_, List.find?_cons_of_pos _ hr, ?_⟩
  · unfold findMatch
    rw [List.find?_append]
    have h1 : early.find? (recordMatches company) = none :=
      List.find?_eq_none.mpr (fun x hx => by rw [hearly x hx]; exact Bool.false_ne_true)
    rw [h1, Option.none_or]
    exact List.find?_cons_of_pos _ hr
  · exact List.find?_eq_none.mpr
      (fun x hx => by rw [hnone x hx]; exact Bool.false_ne_true)

/-- Witness for C6 at concrete inputs: the first record matches only by
name substring, the second is an exact website match, and the first is
returned; a snapshot with no matching record yields none. -/
theorem matcher_first_arrival_witness :
    findMatch ⟨"acme", "acme.com"⟩
        [⟨"success", some ⟨"Jane", "CEO", "Acme Corp", "other.com", []⟩⟩,
         ⟨"success", some ⟨"Bob", "", "", "acme.com", []⟩⟩] =
      some ⟨"success", some ⟨"Jane", "CEO", "Acme Corp", "other.com", []⟩⟩ ∧
    findMatch ⟨"acme", "acme.com"⟩ [⟨"success", none⟩] = none := by
  have h := matcher_first_arrival ⟨"acme", "acme.com"⟩ []
    [⟨"success", some ⟨"Bob", "", "", "acme.com", []⟩⟩]
    [⟨"success", none⟩]
    ⟨"success", some ⟨"Jane", "CEO", "Acme Corp", "other.com", []⟩⟩
    ⟨"success", some ⟨"Bob", "", "", "acme.com", []⟩⟩
    (by intro x hx; cases hx) (by decide) (by decide)
  exact ⟨h.1, h.2.2⟩

/-- C9: the matcher is a pure function of the query and the snapshot:
identical inputs always produce the identical result, and on the empty
snapshot that result is none. -/
theorem matcher_deterministic (c1 c2 : Company) (s1 s2 : List CallbackRecord)
    (hc : c1 = c2) (hs : s1 = s2) :
    findMatch c1 s1 = findMatch c2 s2 ∧ findMatch c1 [] = none := by
  subst hc
  subst hs
  exact ⟨rfl, rfl⟩

/-- Witness for C9 at concrete equal inputs. -/
theorem matcher_deterministic_witness :
    findMatch ⟨"acme", "acme.com"⟩ [⟨"success", none⟩] =
      findMatch ⟨"acme", "acme.com"⟩ [⟨"success", none⟩] ∧
    findMatch ⟨"acme", "acme.com"⟩ [] = none :=
  matcher_deterministic ⟨"acme", "acme.com"⟩ ⟨"acme", "acme.com"⟩
    [⟨"success", none⟩] [⟨"success", none⟩] rfl rfl

/-! ## Claim theorems for the CorrelationWaiter -/

/-- The polling loop yields none when no observed snapshot matches. -/
theorem pollLoop_none (company : Company) (snaps : List (List CallbackRecord))
    (h : ∀ snap ∈ snaps, findMatch company snap = none) :
    pollLoop company snaps = none := by
  induction snaps with
  | nil => rfl
  | cons snap later ih =>
    simp only [pollLoop, h snap (List.mem_cons_self snap later)]
    exact ih (fun s hs => h s (List.mem_cons_of_mem snap hs))

/-- Every polling-loop outcome is none or a candidate projection. -/
theorem pollLoop_shapes (company : Company) (snaps : List (List CallbackRecord)) :
    pollLoop company snaps = none ∨
      ∃ c, pollLoop company snaps = some (ceoOfCandidate c) := by
  induction snaps with
  | nil => exact Or.inl rfl
  | cons snap later ih =>
    cases hf : findMatch company snap with
    | none =>
      simpa only [pollLoop, hf] using ih
    | some r =>
      cases hcand : r.candidate with
      | none => simpa only [pollLoop, hf, hcand] using ih
      | some c =>
        right
        exact ⟨c, by simp only [pollLoop, hf, hcand]⟩

/-- C3: a resolution attempt is a total function that never surfaces a
fault: on every run — matching or not, throwing or not — the outcome is
a candidate projection or one of the two sentinels; when the loop runs
without a thrown error and no snapshot ever matches, the result carries
exactly the not-found sentinel
`{name: Not found, title, email, phone empty}`; when a snapshot yields
a match with a present candidate, the result carries that candidate's
projection; when a call throws, the catch-all handler returns the error
sentinel; and the two sentinels are distinguishable. -/
theorem waiter_sentinel_contract (company : Company)
    (snaps : List (List CallbackRecord)) (ok : Bool) :
    ((∃ c, (enrichWithSignalHire company snaps ok).ceo = ceoOfCandidate c) ∨
     (enrichWithSignalHire company snaps ok).ceo = notFoundSentinel ∨
     (enrichWithSignalHire company snaps ok).ceo = errorSentinel) ∧
    ((∀ snap ∈ snaps, findMatch company snap = none) →
      (enrichWithSignalHire company snaps true).ceo = notFoundSentinel) ∧
    (∀ snap r c, findMatch company snap = some r → r.candidate = some c →
      (enrichWithSignalHire company (snap :: snaps) true).ceo = ceoOfCandidate c) ∧
    (enrichWithSignalHire company snaps false).ceo = errorSentinel ∧
    notFoundSentinel ≠ errorSentinel := by
  refine ⟨?_, ?_, ?_, rfl, by decide⟩
  · cases ok with
    | false => exact Or.inr (Or.inr rfl)
    | true =>
      rcases pollLoop_shapes company snaps with h | ⟨c, h⟩
      · exact Or.inr (Or.inl (by simp [enrichWithSignalHire, h]))
      · exact Or.inl ⟨c, by simp [enrichWithSignalHire, h]⟩
  · intro hnomatch
    simp [enrichWithSignalHire, pollLoop_none company snaps hnomatch]
  · intro snap r c hf hc
    simp [enrichWithSignalHire, pollLoop, hf, hc]

/-- Witness for C3 at concrete inputs: an empty snapshot never matches,
so the waiter times out with the not-found sentinel; a snapshot holding
a matching success record resolves to that candidate's projection; a
thrown error yields the error sentinel, distinct from not-found. -/
theorem waiter_sentinel_contract_witness :
    (enrichWithSignalHire ⟨"acme", "acme.com"⟩ [[]] true).ceo = notFoundSentinel ∧
    (enrichWithSignalHire ⟨"acme", "acme.com"⟩
        [[⟨"success", some ⟨"Jane", "CEO", "Acme Corp", "acme.com", []⟩⟩], []]
        true).ceo =
      ceoOfCandidate ⟨"Jane", "CEO", "Acme Corp", "acme.com", []⟩ ∧
    (enrichWithSignalHire ⟨"acme", "acme.com"⟩ [[]] false).ceo = errorSentinel ∧
    notFoundSentinel ≠ errorSentinel :=
  ⟨(waiter_sentinel_contract ⟨"acme", "acme.com"⟩ [[]] true).2.1 (by decide),
   (waiter_sentinel_contract ⟨"acme", "acme.com"⟩ [[]] true).2.2.1
     [⟨"success", some ⟨"Jane", "CEO", "Acme Corp", "acme.com", []⟩⟩]
     ⟨"success", some ⟨"Jane", "CEO", "Acme Corp", "acme.com", []⟩⟩
     ⟨"Jane", "CEO", "Acme Corp", "acme.com", []⟩ (by decide) rfl,
   (waiter_sentinel_contract ⟨"acme", "acme.com"⟩ [[]] false).2.2.2.1,
   (waiter_sentinel_contract ⟨"acme", "acme.com"⟩ [[]] false).2.2.2.2⟩

/-- C10: the enrichment step preserves every field of the input company
and only adds the ceo field, on the resolved path, the timed-out path
and the error path alike: the result record consists of the unchanged
name and website of the input plus a ceo value. -/
theorem enrich_frame_condition (company : Company)
    (snaps : List (List CallbackRecord)) (ok : Bool) :
    (enrichWithSignalHire company snaps ok).name = company.name ∧
    (enrichWithSignalHire company snaps ok).website = company.website ∧
    enrichWithSignalHire company snaps ok =
      ⟨company.name, company.website, (enrichWithSignalHire company snaps ok).ceo⟩ := by
  cases ok with
  | false => exact ⟨rfl, rfl, rfl⟩
  | true =>
    cases h : pollLoop company snaps with
    | none =>
      refine ⟨?_, ?_, ?_⟩ <;> simp [enrichWithSignalHire, h]
    | some c =>
      refine ⟨?_, ?_, ?_⟩ <;> simp [enrichWithSignalHire, h]

/-! ## Claim theorems for the CallbackSink -/

/-- C2, counterexample: the claim is false on the code.  The POST
handler pushes the parsed payload as a single entry: ingesting an
array of two result objects leaves the snapshot with one record, not
one record per element. -/
theorem callback_ingest_no_split_counterexample :
    (callbackGET (callbackPOST []
        (some (Payload.arr [Payload.atom "a", Payload.atom "b"])) true).1).length = 1 ∧
    (callbackGET (callbackPOST []
        (some (Payload.arr [Payload.atom "a", Payload.atom "b"])) true).1).length ≠ 2 :=
  ⟨rfl, by decide⟩

/-- C2, amended: every successfully parsed callback POST appends
exactly one record to the sink — the whole payload, arrays not split —
so a subsequent GET snapshot holds the previous records followed by
the new payload, one record per ingest event. -/
theorem callback_ingest_appends_whole_payload (sink : List Payload) (data : Payload)
    (writeOk : Bool) :
    callbackGET (callbackPOST sink (some data) writeOk).1 = sink ++ [data] ∧
    (callbackGET (callbackPOST sink (some data) writeOk).1).length = sink.length + 1 := by
  cases writeOk with
  | true => exact ⟨rfl, by simp [callbackGET, callbackPOST]⟩
  | false => exact ⟨rfl, by simp [callbackGET, callbackPOST]⟩

/-- C8, counterexample: the claim is false on the code.  On a valid
payload whose backup write fails, the record is retained in memory but
the handler reaches the catch block and responds 500, not the claimed
success response 200. -/
theorem callback_persist_failure_counterexample :
    (callbackPOST [] (some (Payload.atom "a")) false).2 = 500 ∧
    (callbackPOST [] (some (Payload.atom "a")) false).2 ≠ 200 ∧
    (callbackPOST [] (some (Payload.atom "a")) false).1 = [Payload.atom "a"] :=
  ⟨rfl, by decide, rfl⟩

/-- C8, amended: the ingress endpoint responds 200 only when both the
body parse and the backup write succeed; a persistence failure still
leaves the freshly pushed record in the in-memory sink, but the
response becomes a 500 error; a parse failure leaves the sink
unchanged and also yields 500. -/
theorem callback_persist_failure_behavior (sink : List Payload) (data : Payload) :
    (callbackPOST sink (some data) true).2 = 200 ∧
    (callbackPOST sink (some data) true).1 = sink ++ [data] ∧
    (callbackPOST sink (some data) false).1 = sink ++ [data] ∧
    (callbackPOST sink (some data) false).2 = 500 ∧
    (callbackPOST sink none true).1 = sink ∧
    (callbackPOST sink none true).2 = 500 :=
  ⟨rfl, rfl, rfl, rfl, rfl, rfl⟩

/-! ## Claim theorems for the Deduplicator -/

/-- The deduplication pass keeps an ordered selection of its input. -/
theorem dedupeLoop_sublist (seen : List String) (l : List Company) :
    List.Sublist (dedupeLoop seen l) l := by
  induction l generalizing seen with
  | nil => exact List.Sublist.refl []
  | cons c rest ih =>
    unfold dedupeLoop
    by_cases h : normalizeUrl c.website = "" ∨ normalizeUrl c.website ∈ seen
    · rw [if_pos h]
      exact List.Sublist.cons c (ih seen)
    · rw [if_neg h]
      exact List.Sublist.cons₂ c (ih _)

/-- Every kept item has a non-empty key not in the ambient seen set. -/
theorem dedupeLoop_keys (seen : List String) (l : List Company) :
    ∀ x ∈ dedupeLoop seen l,
      normalizeUrl x.website ≠ "" ∧ normalizeUrl x.website ∉ seen := by
  induction l generalizing seen with
  | nil => intro x hx; cases hx
  | cons c rest ih =>
    intro x hx
    unfold dedupeLoop at hx
    by_cases h : normalizeUrl c.website = "" ∨ normalizeUrl c.website ∈ seen
    · rw [if_pos h] at hx
      exact ih seen x hx
    · rw [if_neg h] at hx
      rcases List.mem_cons.mp hx with rfl | hx2
      · rcases not_or.mp h with ⟨h1, h2⟩
        exact ⟨h1, h2⟩
      · obtain ⟨k1, k2⟩ := ih _ x hx2
        exact ⟨k1, fun hmem => k2 (List.mem_cons_of_mem _ hmem)⟩

/-- The keys of the kept items are pairwise distinct. -/
theorem dedupeLoop_nodup (seen : List String) (l : List Company) :
    ((dedupeLoop seen l).map (fun x => normalizeUrl x.website)).Nodup := by
  induction l generalizing seen with
  | nil => exact List.nodup_nil
  | cons c rest ih =>
    unfold dedupeLoop
    by_cases h : normalizeUrl c.website = "" ∨ normalizeUrl c.website ∈ seen
    · rw [if_pos h]
      exact ih seen
    · rw [if_neg h]
      rw [List.map_cons]
      refine List.nodup_cons.mpr ⟨?_, ih _⟩
      intro hmem
      rcases List.mem_map.mp hmem with ⟨y, hy, hkey⟩
      have hk := (dedupeLoop_keys _ _ y hy).2
      rw [hkey] at hk
      exact hk (List.mem_cons_self _ _)

/-- The first item bearing a usable key is kept by the pass. -/
theorem dedupeLoop_mem_first (seen : List String) (l1 l2 : List Company)
    (c : Company)
    (hkey : normalizeUrl c.website ≠ "")
    (hseen : normalizeUrl c.website ∉ seen)
    (hfirst : ∀ x ∈ l1, normalizeUrl x.website ≠ normalizeUrl c.website) :
    c ∈ dedupeLoop seen (l1 ++ c :: l2) := by
  induction l1 generalizing seen with
  | nil =>
    rw [List.nil_append]
    unfold dedupeLoop
    rw [if_neg (not_or.mpr ⟨hkey, hseen⟩)]
    exact List.mem_cons_self _ _
  | cons a l1 ih =>
    rw [List.cons_append]
    unfold dedupeLoop
    by_cases h : normalizeUrl a.website = "" ∨ normalizeUrl a.website ∈ seen
    · rw [if_pos h]
      exact ih seen hseen (fun x hx => hfirst x (List.mem_cons_of_mem a hx))
    · rw [if_neg h]
      refine List.mem_cons_of_mem a
        (ih _ ?_ (fun x hx => hfirst x (List.mem_cons_of_mem a hx)))
      intro hmem
      rcases List.mem_cons.mp hmem with heq | hmem2
      · exact hfirst a (List.mem_cons_self a l1) heq.symm
      · exact hseen hmem2

/-- C7: deduplication keeps the first occurrence of each usable
normalized-website key, drops every later item with an already seen key
and every item whose key normalizes to empty, preserves the input
order of the kept items, and the search pipeline — which takes at most
three raw results before deduplicating — yields at most three
candidates per query. -/
theorem dedupe_contract (companies : List Company) (organic : List RawResult)
    (l1 l2 : List Company) (c : Company)
    (hsplit : companies = l1 ++ c :: l2)
    (hkey : normalizeUrl c.website ≠ "")
    (hfirst : ∀ x ∈ l1, normalizeUrl x.website ≠ normalizeUrl c.website) :
    c ∈ dedupeCompanies companies ∧
    List.Sublist (dedupeCompanies companies) companies ∧
    (∀ x ∈ dedupeCompanies companies, normalizeUrl x.website ≠ "") ∧
    ((dedupeCompanies companies).map (fun x => normalizeUrl x.website)).Nodup ∧
    (searchISVs organic).length ≤ 3 := by
  refine ⟨?_, dedupeLoop_sublist [] companies,
    fun x hx => (dedupeLoop_keys [] companies x hx).1,
    dedupeLoop_nodup [] companies, ?_⟩
  · rw [hsplit]
    exact dedupeLoop_mem_first [] l1 l2 c hkey (by simp) hfirst
  · have h1 : List.Sublist (searchISVs organic) (topResults organic) :=
      dedupeLoop_sublist [] _
    have h2 := h1.length_le
    have h3 : (topResults organic).length ≤ 3 := by
      unfold topResults
      rw [List.length_map, List.length_take]
      exact min_le_left 3 _
    omega

/-- Witness for C7 at concrete inputs: with three items of which the
third repeats the first key, the first occurrence is kept. -/
theorem dedupe_contract_witness :
    (⟨"A", "a.com"⟩ : Company) ∈ dedupeCompanies
        [⟨"A", "a.com"⟩, ⟨"B", "b.com"⟩, ⟨"A2", "http://a.com"⟩] ∧
    List.Sublist
      (dedupeCompanies [⟨"A", "a.com"⟩, ⟨"B", "b.com"⟩, ⟨"A2", "http://a.com"⟩])
      [⟨"A", "a.com"⟩, ⟨"B", "b.com"⟩, ⟨"A2", "http://a.com"⟩] ∧
    (∀ x ∈ dedupeCompanies [⟨"A", "a.com"⟩, ⟨"B", "b.com"⟩, ⟨"A2", "http://a.com"⟩],
      normalizeUrl x.website ≠ "") ∧
    ((dedupeCompanies [⟨"A", "a.com"⟩, ⟨"B", "b.com"⟩,
        ⟨"A2", "http://a.com"⟩]).map (fun x => normalizeUrl x.website)).Nodup ∧
    (searchISVs []).length ≤ 3 :=
  dedupe_contract [⟨"A", "a.com"⟩, ⟨"B", "b.com"⟩, ⟨"A2", "http://a.com"⟩] []
    [] [⟨"B", "b.com"⟩, ⟨"A2", "http://a.com"⟩] ⟨"A", "a.com"⟩
    rfl (by decide) (by intro x hx; cases hx)

end SearchAI
